import Mathlib

/-!
Shallow embedding of the Ghostwriter agent execution core
(TypeScript sources under `src/`), together with proofs of the
specification claims about it.

Conventions:
* JS strings are Lean `String`s; `startsWith` / `endsWith` / `includes`
  are modelled on the character lists.
* JS `a || b` on numbers treats `0` and `undefined` as falsy
  (`jsOrNat`).
* Node `path.normalize` / `path.resolve` are modelled for POSIX paths.
* The regular expressions of `run_command.ts` are modelled by a small
  Brzozowski-derivative matcher.
-/

namespace Ghostwriter

/-! ## JS string primitives -/

/-- JS `String.prototype.startsWith`. -/
def strStartsWith (s pre : String) : Bool :=
  pre.data.isPrefixOf s.data

/-- JS `String.prototype.endsWith`. -/
def strEndsWith (s suf : String) : Bool :=
  suf.data.isSuffixOf s.data

/-- Does `sub` occur as a contiguous sublist of `s`? -/
def listContainsSub (s sub : List Char) : Bool :=
  sub.isPrefixOf s ||
    match s with
    | [] => false
    | _ :: t => listContainsSub t sub

/-- JS `String.prototype.includes` (substring containment). -/
def strIncludes (s sub : String) : Bool :=
  listContainsSub s.data sub.data

/-- JS whitespace class (the ASCII part of `\s`). -/
def isSpaceChar (c : Char) : Bool :=
  c = ' ' || c = '\t' || c = '\n' || c = '\r' || c = '\x0b' || c = '\x0c'

/-- JS `\w` word-character class. -/
def isWordChar (c : Char) : Bool :=
  (('a' ≤ c && c ≤ 'z') || ('A' ≤ c && c ≤ 'Z') || ('0' ≤ c && c ≤ '9') || c = '_')

/-- JS `String.prototype.trim` (ASCII whitespace). -/
def jsTrim (s : String) : String :=
  ⟨(s.data.dropWhile isSpaceChar).reverse.dropWhile isSpaceChar |>.reverse⟩

/-- JS `String.prototype.toLowerCase` (ASCII part). -/
def charToLower (c : Char) : Char :=
  if 'A' ≤ c && c ≤ 'Z' then Char.ofNat (c.toNat + 32) else c

def jsToLower (s : String) : String :=
  ⟨s.data.map charToLower⟩

/-- JS `a || b` for an optional number `a`: `undefined` and `0` are falsy. -/
def jsOrNat (a : Option Nat) (b : Nat) : Nat :=
  match a with
  | none => b
  | some 0 => b
  | some (n+1) => n+1

/-! ## Node `path` (POSIX) -/

/-- Split a path into `/`-separated segments. -/
def splitOnSlash (p : String) : List String :=
  (p.data.splitOn '/').map (fun cs => ⟨cs⟩)

/-- Segment resolution of Node `path.normalize`: drops empty and `.`
segments, resolves `..` against the stack (clamping at the root for
absolute paths, keeping leading `..` for relative ones). -/
def pathNormalizeSegs (isAbs : Bool) (segs : List String) : List String :=
  (segs.foldl (fun acc seg =>
    if seg = "" || seg = "." then acc
    else if seg = ".." then
      match acc with
      | [] => if isAbs then [] else [".."]
      | top :: rest => if top = ".." then seg :: acc else rest
    else seg :: acc) []).reverse

/-- Node `path.normalize` for POSIX paths. -/
def pathNormalize (p : String) : String :=
  if p = "" then "."
  else
    let isAbs := strStartsWith p "/"
    let hasTrailing := strEndsWith p "/"
    let body := String.intercalate "/" (pathNormalizeSegs isAbs (splitOnSlash p))
    let body := if body = "" && !isAbs then "." else body
    let res := (if isAbs then "/" else "") ++ body
    if hasTrailing && !(strEndsWith res "/") then res ++ "/" else res

/-- Node `path.resolve(workingDirectory, p)` assuming `workingDirectory`
is absolute: absolute `p` wins, otherwise it is joined onto the working
directory; the result is normalized with any trailing slash removed. -/
def pathResolve (wd p : String) : String :=
  let joined := if strStartsWith p "/" then p else wd ++ "/" ++ p
  let n := pathNormalize joined
  if n ≠ "/" && strEndsWith n "/" then ⟨n.data.dropLast⟩ else n

/-! ## Regular expressions (`run_command.ts` dangerous patterns)

A Brzozowski-derivative matcher for the fragment of JS regex used by
`DANGEROUS_PATTERNS`: character classes, concatenation, alternation,
`*`, `+`, `?`, with the `i` (case-insensitive) flag folded into the
literal classes.  `Reg.test` mirrors `RegExp.prototype.test`: a match
may start at any position of the string. -/

inductive Reg where
  | emp : Reg
  | eps : Reg
  | cls (p : Char → Bool) : Reg
  | cat (a b : Reg) : Reg
  | alt (a b : Reg) : Reg
  | star (a : Reg) : Reg

namespace Reg

def nullable : Reg → Bool
  | emp => false
  | eps => true
  | cls _ => false
  | cat a b => nullable a && nullable b
  | alt a b => nullable a || nullable b
  | star _ => true

def deriv : Reg → Char → Reg
  | emp, _ => emp
  | eps, _ => emp
  | cls p, c => if p c then eps else emp
  | cat a b, c =>
      if nullable a then alt (cat (deriv a c) b) (deriv b c)
      else cat (deriv a c) b
  | alt a b, c => alt (deriv a c) (deriv b c)
  | star a, c => cat (deriv a c) (star a)

/-- Does some prefix of `s` match `r`? -/
def matchesHere (r : Reg) : List Char → Bool
  | [] => nullable r
  | c :: cs => nullable r || matchesHere (deriv r c) cs

/-- Does `r` match starting at some position of `s`? -/
def search (r : Reg) : List Char → Bool
  | [] => matchesHere r []
  | c :: cs => matchesHere r (c :: cs) || search r cs

/-- JS `RegExp.prototype.test`. -/
def test (r : Reg) (s : String) : Bool :=
  search r s.data

/-- `r+`. -/
def plus (r : Reg) : Reg := cat r (star r)

/-- `r?`. -/
def opt (r : Reg) : Reg := alt r eps

/-- A literal character under the `i` flag. -/
def litCI (c : Char) : Reg := cls (fun x => x.toLower = c.toLower)

/-- A literal string under the `i` flag. -/
def litsCI (s : String) : Reg :=
  s.data.foldr (fun c r => cat (litCI c) r) eps

/-- The `\s` class. -/
def ws : Reg := cls isSpaceChar

end Reg

/-- `/rm\s+(-rf?|--recursive)/i` -/
def patRmRecursive : Reg :=
  .cat (Reg.litsCI "rm") (.cat (Reg.plus Reg.ws)
    (.alt (.cat (Reg.litCI '-') (.cat (Reg.litCI 'r') (Reg.opt (Reg.litCI 'f'))))
          (Reg.litsCI "--recursive")))

/-- `/sudo/i` -/
def patSudo : Reg := Reg.litsCI "sudo"

/-- `/chmod\s+777/i` -/
def patChmod777 : Reg :=
  .cat (Reg.litsCI "chmod") (.cat (Reg.plus Reg.ws) (Reg.litsCI "777"))

/-- `/>\s*\/dev\//i` -/
def patDevRedirect : Reg :=
  .cat (Reg.litCI '>') (.cat (.star Reg.ws) (Reg.litsCI "/dev/"))

/-- `/mkfs/i` -/
def patMkfs : Reg := Reg.litsCI "mkfs"

/-- `/dd\s+if=/i` -/
def patDdIf : Reg :=
  .cat (Reg.litsCI "dd") (.cat (Reg.plus Reg.ws) (Reg.litsCI "if="))

/-- `/:\(\)\s*{\s*:\|:\s*&\s*}\s*;/i` (fork bomb). -/
def patForkBomb : Reg :=
  .cat (Reg.litCI ':') <| .cat (Reg.litCI '(') <| .cat (Reg.litCI ')') <|
  .cat (.star Reg.ws) <| .cat (Reg.litCI '{') <| .cat (.star Reg.ws) <|
  .cat (Reg.litCI ':') <| .cat (Reg.litCI '|') <| .cat (Reg.litCI ':') <|
  .cat (.star Reg.ws) <| .cat (Reg.litCI '&') <| .cat (.star Reg.ws) <|
  .cat (Reg.litCI '}') <| .cat (.star Reg.ws) <| Reg.litCI ';'

/-- `DANGEROUS_PATTERNS` of `src/tools/run_command.ts`. -/
def DANGEROUS_PATTERNS : List Reg :=
  [patRmRecursive, patSudo, patChmod777, patDevRedirect, patMkfs,
   patDdIf, patForkBomb]

/-- `isDangerousCommand` of `src/tools/run_command.ts`. -/
def isDangerousCommand (command : String) : Bool :=
  DANGEROUS_PATTERNS.any (fun pattern => pattern.test command)

/-! ## Configuration (`src/config.ts`, `src/types.ts`) -/

/-- `LLMConfig` (`src/types.ts`); only the shape matters here. -/
structure LLMConfig where
  provider : String
  model : String
  apiKey : Option String := none
  baseUrl : Option String := none
  maxTokens : Option Nat := none
  temperature : Option Nat := none
  deriving DecidableEq, Repr

/-- `ProjectConfig` (`src/types.ts`): the `.aide/config.json` policy. -/
structure ProjectConfig where
  allow_commands : List String := []
  allow_write_paths : List String := []
  deny_paths : List String := []
  deriving DecidableEq, Repr

/-- `AppConfig` (`src/types.ts`). -/
structure AppConfig where
  workingDirectory : String
  autoConfirm : Bool
  llm : LLMConfig
  project : ProjectConfig
  maxToolLoops : Nat
  debug : Bool
  deriving DecidableEq, Repr

/-- Options record accepted by `createAppConfig` (`src/config.ts`). -/
structure AppConfigOptions where
  autoConfirm : Option Bool := none
  debug : Option Bool := none
  workingDirectory : Option String := none
  deriving DecidableEq, Repr

/-- `createAppConfig` (`src/config.ts` lines 145-182).  The working
directory defaults to `process.cwd()` (`cwd`); the loaded project
policy and the environment-derived LLM configuration enter as
parameters (their construction is I/O).  `maxToolLoops` is the
hard-coded process default `8`. -/
def createAppConfig (options : AppConfigOptions) (cwd : String)
    (projectConfig : ProjectConfig) (llmConfig : LLMConfig) : AppConfig :=
  { workingDirectory := options.workingDirectory.getD cwd
    autoConfirm := options.autoConfirm.getD false
    llm := llmConfig
    project := projectConfig
    maxToolLoops := 8
    debug := options.debug.getD false }

/-- `isCommandAllowed` (`src/config.ts` lines 201-220): exact match, or
prefix match against entries ending in the `*` wildcard. -/
def isCommandAllowed (command : String) (config : AppConfig) : Bool :=
  let allowedCommands := config.project.allow_commands
  if allowedCommands.contains command then true
  else allowedCommands.any (fun allowed =>
    strEndsWith allowed "*" &&
      strStartsWith command ⟨allowed.data.dropLast⟩)

/-- `isPathAllowedForWrite` (`src/config.ts` lines 225-243): deny-list
substring check on the normalized path first, then (if the allow-list
is non-empty) an allow-list prefix check. -/
def isPathAllowedForWrite (filePath : String) (config : AppConfig) : Bool :=
  let normalizedPath := pathNormalize filePath
  if (config.project.deny_paths).any (fun denied =>
      strIncludes normalizedPath denied) then false
  else
    let allowPaths := config.project.allow_write_paths
    if allowPaths.length > 0 then
      allowPaths.any (fun allowed => strStartsWith normalizedPath allowed)
    else true

/-! ## Safety gate (`Agent.createToolContext`, `src/agent/index.ts`) -/

inductive RiskLevel where
  | low | medium | high
  deriving DecidableEq, Repr

/-- The `confirmAction` callback injected by `Agent.createToolContext`
(`src/agent/index.ts` lines 127-139).  Returns whether the interactive
`confirm` prompt was reached, and the boolean handed back to the tool:
under `autoConfirm` every risk level except `high` short-circuits to
`true` without prompting; otherwise the user's answer is returned. -/
def confirmAction (autoConfirm : Bool) (riskLevel : RiskLevel)
    (userAnswer : Bool) : Bool × Bool :=
  if autoConfirm && riskLevel ≠ RiskLevel.high then (false, true)
  else (true, userAnswer)

/-! ## `run_command` tool (`src/tools/run_command.ts`) -/

/-- `RunCommandResult` (`src/types.ts`). -/
structure RunCommandResult where
  stdout : String
  stderr : String
  code : Int
  deriving DecidableEq, Repr

inductive RunCmdOutcome where
  | errEmptyCommand
  | cancelled
  | executed
  deriving DecidableEq, Repr

/-- Result of the confirmation gate of `runCommandTool.execute`
(`src/tools/run_command.ts` lines 52-96), instrumented with whether
the interactive confirmation prompt was reached. -/
structure RunCmdDecision where
  outcome : RunCmdOutcome
  prompted : Bool
  deriving DecidableEq, Repr

/-- The pre-execution gate of `runCommandTool.execute`: empty-command
check, dangerous-pattern inspection, whitelist lookup and the
confirmation decision, in source order. -/
def runCommandGate (command : String) (config : AppConfig)
    (userAnswer : Bool) : RunCmdDecision :=
  if jsTrim command = "" then ⟨.errEmptyCommand, false⟩
  else
    let dangerous := isDangerousCommand command
    let inWhitelist := isCommandAllowed command config
    let needConfirm0 := !config.autoConfirm
    let needConfirm1 := if inWhitelist && !dangerous then false else needConfirm0
    let needConfirm := if dangerous then true else needConfirm1
    if needConfirm then
      let riskLevel := if dangerous then RiskLevel.high else RiskLevel.medium
      let (prompted, confirmed) := confirmAction config.autoConfirm riskLevel userAnswer
      if confirmed then ⟨.executed, prompted⟩ else ⟨.cancelled, prompted⟩
    else ⟨.executed, false⟩

/-- Observable behavior of one spawned subprocess, abstracting the
event callbacks of `executeCommand`: the output collected on the two
pipes, the exit code delivered with the `close` event, and the running
time relative to the timeout timer. -/
structure ProcBehavior where
  stdoutData : String
  stderrData : String
  exitCode : Option Int
  timedOut : Bool
  deriving DecidableEq, Repr

/-- `executeCommand` (`src/tools/run_command.ts` lines 117-176),
instrumented with whether `SIGKILL` was sent: if the timeout timer
fires before the process closes (`timedOut`), the process is killed and
the result carries the partial output, a timeout note appended to
stderr, and code `-1`; otherwise the natural output and exit code
(`null` coalesced to `0`). -/
def executeCommandModel (proc : ProcBehavior) : RunCommandResult × Bool :=
  if proc.timedOut then
    ({ stdout := proc.stdoutData
       stderr := proc.stderrData ++ "\n[命令执行超时，已终止]"
       code := -1 }, true)
  else
    ({ stdout := proc.stdoutData
       stderr := proc.stderrData
       code := proc.exitCode.getD 0 }, false)

/-- `ToolResult` specialized to `run_command` data. -/
structure RunCmdToolResult where
  success : Bool
  data : Option RunCommandResult := none
  error : Option String := none
  deriving DecidableEq, Repr

/-- `runCommandTool.execute` end to end: the gate above followed by
`executeCommand`; a timed-out run still resolves and is wrapped as a
`success: true` result.  Also returns whether the prompt was shown and
whether `SIGKILL` was sent. -/
def runCommandExecute (command : String) (config : AppConfig)
    (userAnswer : Bool) (proc : ProcBehavior) :
    RunCmdToolResult × Bool × Bool :=
  let d := runCommandGate command config userAnswer
  match d.outcome with
  | .errEmptyCommand => (⟨false, none, some "必须提供命令"⟩, d.prompted, false)
  | .cancelled => (⟨false, none, some "用户取消命令执行"⟩, d.prompted, false)
  | .executed =>
      let (result, killed) := executeCommandModel proc
      (⟨true, some result, none⟩, d.prompted, killed)

/-! ## `delete_file` tool (`src/tools/delete_file.ts`) -/

inductive DeleteOutcome where
  | errNoPath
  | errPolicy
  | errWorkdir
  | errNotFound
  | cancelled
  | deleted
  deriving DecidableEq, Repr

/-- Result of `deleteFileTool.execute` up to the actual filesystem
deletion, instrumented with whether the confirmation prompt was
reached. -/
structure DeleteDecision where
  outcome : DeleteOutcome
  prompted : Bool
  fullPath : String
  deriving DecidableEq, Repr

/-- Filesystem facts and the user's answer observed during one
`delete_file` invocation. -/
structure DeleteEnv where
  pathExists : Bool
  isDirectory : Bool
  userAnswer : Bool
  deriving DecidableEq, Repr

/-- `deleteFileTool.execute` (`src/tools/delete_file.ts` lines 32-109)
up to the deletion itself, in source order: missing-path check, path
resolution, write-policy check, working-directory guard
(`workingDirectory.startsWith(fullPath)`), existence check, then the
always-`high` confirmation. -/
def deleteFileExecuteGate (filePath : String) (config : AppConfig)
    (env : DeleteEnv) : DeleteDecision :=
  if filePath = "" then ⟨.errNoPath, false, ""⟩
  else
    let fullPath := pathResolve config.workingDirectory filePath
    if !isPathAllowedForWrite fullPath config then ⟨.errPolicy, false, fullPath⟩
    else if strStartsWith config.workingDirectory fullPath then
      ⟨.errWorkdir, false, fullPath⟩
    else if !env.pathExists then ⟨.errNotFound, false, fullPath⟩
    else
      let (prompted, confirmed) :=
        confirmAction config.autoConfirm RiskLevel.high env.userAnswer
      if !confirmed then ⟨.cancelled, prompted, fullPath⟩
      else ⟨.deleted, prompted, fullPath⟩

/-- The `success` flag of the `ToolResult` produced for each
`delete_file` outcome (deletion itself succeeding). -/
def deleteOutcomeSuccess : DeleteOutcome → Bool
  | .deleted => true
  | _ => false

/-- `p` is the working directory itself or one of its ancestors
(paths written without trailing slash, as `path.resolve` returns
them). -/
def isAncestorOrEqual (p wd : String) : Prop :=
  wd = p ∨ (∃ rest, wd = p ++ "/" ++ rest) ∨
    (p = "/" ∧ ∃ rest, wd = "/" ++ rest)

/-! ## Tool dispatch (`src/tools/manager.ts`) -/

/-- `ToolCall` / `NativeToolCall` (`src/types.ts`); tool arguments are
carried as their JSON encoding. -/
structure ToolCall where
  id : String := ""
  name : String
  arguments : String := ""
  deriving DecidableEq, Repr

/-- `ToolResult` (`src/types.ts`), with `data` as its JSON encoding. -/
structure ToolResult where
  success : Bool
  data : String := ""
  error : Option String := none
  deriving DecidableEq, Repr

/-- Which source actually served a dispatch in
`ToolManager.executeTool`. -/
inductive ExecRoute where
  | builtinRoute
  | mcpRoute
  | notFoundRoute
  deriving DecidableEq, Repr

/-- A builtin tool as seen by the dispatcher: an implementation that
may throw (`Except.error`). -/
structure BuiltinTool where
  run : String → Except String ToolResult

/-- `ToolManager.executeTool` (`src/tools/manager.ts` lines 163-201):
builtin lookup first; only on a miss, and only with MCP enabled, the
MCP call; thrown exceptions are converted to failed results.
Instrumented with the route taken. -/
def managerExecuteTool (getBuiltinTool : String → Option BuiltinTool)
    (mcpEnabled : Bool) (mcpCall : String → String → Except String ToolResult)
    (toolCall : ToolCall) : ToolResult × ExecRoute :=
  match getBuiltinTool toolCall.name with
  | some builtinTool =>
      match builtinTool.run toolCall.arguments with
      | .ok r => (r, .builtinRoute)
      | .error e => (⟨false, "", some ("内置工具执行异常: " ++ e)⟩, .builtinRoute)
  | none =>
      if mcpEnabled then
        match mcpCall toolCall.name toolCall.arguments with
        | .ok r => (r, .mcpRoute)
        | .error e => (⟨false, "", some ("MCP 工具执行异常: " ++ e)⟩, .mcpRoute)
      else (⟨false, "", some ("未知工具: " ++ toolCall.name)⟩, .notFoundRoute)

/-! ## Canonical messages and the agent loop (`src/agent/index.ts`) -/

inductive Role where
  | system | user | assistant | tool
  deriving DecidableEq, Repr

/-- `Message` (`src/types.ts`). -/
structure Message where
  role : Role
  content : String
  name : Option String := none
  tool_call_id : Option String := none
  tool_calls : List ToolCall := []
  deriving DecidableEq, Repr

/-- The response value `Agent.run` consumes from the LLM client
(fields as referenced by `src/agent/index.ts`: `thinking`, `plan`,
`response`, `tool_calls`). -/
structure LLMResp where
  thinking : Option String := none
  plan : Option String := none
  response : String := ""
  tool_calls : List ToolCall := []
  deriving DecidableEq, Repr

/-- Stands in for `JSON.stringify(llmResponse)` when the assistant turn
is appended to history (`src/agent/index.ts` line 228); any injective
rendering serves, the loop never reads it back. -/
def stringifyLLMResp (r : LLMResp) : String :=
  "resp:" ++ r.response ++ ";tools:" ++
    String.intercalate "," (r.tool_calls.map (·.name))

/-- `AgentType` (`src/types.ts`). -/
inductive AgentType where
  | main | test | review | refactor | custom
  deriving DecidableEq, Repr

/-- `AgentConfig` (`src/types.ts`). -/
structure AgentConfig where
  type : AgentType
  name : String
  systemPrompt : String
  availableTools : List String
  maxLoops : Option Nat := none
  deriving DecidableEq, Repr

/-- `AgentState` less the transient `currentToolCall` bookkeeping,
plus the agent's `projectContext` (a private field of `Agent`). -/
structure AgentM where
  id : String
  config : AgentConfig
  messages : List Message
  isRunning : Bool
  projectContext : Option String := none
  deriving DecidableEq, Repr

/-- `Agent.addMessage`. -/
def addMessage (agent : AgentM) (m : Message) : AgentM :=
  { agent with messages := agent.messages ++ [m] }

/-- `Agent.buildMessagesWithContext` (`src/agent/index.ts` lines
169-186): the project-knowledge system message, if any, precedes the
full history. -/
def buildMessagesWithContext (agent : AgentM) : List Message :=
  (match agent.projectContext with
   | some ctx =>
       [{ role := .system,
          content := "以下是当前项目的知识文档，请在处理用户请求时参考：\n\n" ++ ctx }]
   | none => []) ++ agent.messages

/-- The synthetic tool-turn content folded into history
(`src/agent/index.ts` lines 263-265). -/
def toolResultsContent (results : List (String × ToolResult)) : String :=
  String.intercalate "\n\n" (results.map (fun (nr : String × ToolResult) =>
    "[" ++ nr.1 ++ "]\n" ++
      (if nr.2.success then nr.2.data
       else "错误: " ++ (nr.2.error.getD ""))))

inductive RunResult where
  | ok (response : String)
  | err (e : String)
  deriving DecidableEq, Repr

/-- Observable outcome of one `Agent.run`, instrumented with the number
of LLM-client calls performed, whether the loop ended on a zero-tool-
call turn, and the text of the last model turn seen. -/
structure RunOut where
  result : RunResult
  agent : AgentM
  calls : Nat
  noToolBreak : Bool
  lastResponse : Option String
  deriving Repr

/-- One `while` iteration of `Agent.run`, recursing on the remaining
iteration budget `maxLoops - loopCount`.  `llm` is the LLM client
(provider errors surface as `Except.error` and abort the run), and
`toolExec` is `Agent.executeToolCall` for the invoking agent. -/
def runAux (llm : List Message → Except String LLMResp)
    (toolExec : ToolCall → ToolResult) :
    Nat → AgentM → String → Nat → Option String → RunOut
  | 0, st, finalResponse, calls, lastResp =>
      ⟨.ok finalResponse, { st with isRunning := false }, calls, false, lastResp⟩
  | remaining + 1, st, _finalResponse, calls, lastResp =>
      let calls := calls + 1
      match llm (buildMessagesWithContext st) with
      | .error e => ⟨.err e, { st with isRunning := false }, calls, false, lastResp⟩
      | .ok resp =>
          let st := addMessage st
            { role := .assistant, content := stringifyLLMResp resp }
          if resp.tool_calls.isEmpty then
            ⟨.ok resp.response, { st with isRunning := false }, calls, true,
              some resp.response⟩
          else
            let results := resp.tool_calls.map (fun tc => (tc.name, toolExec tc))
            let st := addMessage st
              { role := .tool, content := toolResultsContent results,
                name := some "tool_results" }
            if resp.response ≠ "" && resp.tool_calls.isEmpty then
              ⟨.ok resp.response, { st with isRunning := false }, calls, true,
                some resp.response⟩
            else
              runAux llm toolExec remaining st resp.response calls
                (some resp.response)

/-- `Agent.run` (`src/agent/index.ts` lines 191-291): append the user
message, compute the effective loop cap with the JS `||` fallback, and
iterate. -/
def agentRun (llm : List Message → Except String LLMResp)
    (toolExec : ToolCall → ToolResult) (appConfig : AppConfig)
    (agent : AgentM) (userMessage : String) : RunOut :=
  let st := { agent with isRunning := true }
  let st := addMessage st { role := .user, content := userMessage }
  let maxLoops := jsOrNat st.config.maxLoops appConfig.maxToolLoops
  runAux llm toolExec maxLoops st "" 0 none

/-! ## Sub-agent presets and directive parsing (`src/agent/sub-agent.ts`) -/

/-- `AGENT_PRESETS` joined with `getAgentConfig`
(`src/agent/sub-agent.ts` lines 9-112). -/
def getAgentConfig : AgentType → AgentConfig
  | .main =>
      { type := .main, name := "主代理",
        systemPrompt := "你是主代理，负责处理用户的所有请求。",
        availableTools := ["list_files", "read_file", "write_file",
          "append_file", "delete_file", "run_command", "search_codebase"] }
  | .test =>
      { type := .test, name := "测试代理",
        systemPrompt := "你是测试专家代理，专门负责：
1. 编写单元测试和集成测试
2. 运行测试命令并分析结果
3. 提高代码覆盖率
4. 修复失败的测试

你应该：
- 优先使用项目现有的测试框架
- 遵循项目的测试命名规范
- 确保测试用例覆盖边界情况
- 提供清晰的测试报告",
        availableTools := ["list_files", "read_file", "write_file",
          "run_command", "search_codebase"],
        maxLoops := some 5 }
  | .review =>
      { type := .review, name := "代码审查代理",
        systemPrompt := "你是代码审查专家代理，专门负责：
1. 审查代码质量和最佳实践
2. 发现潜在的 bug 和安全问题
3. 提供改进建议
4. 检查代码风格一致性

你应该：
- 关注代码可读性和可维护性
- 检查错误处理是否完善
- 验证输入验证和安全性
- 提供具体的改进建议和示例代码",
        availableTools := ["list_files", "read_file", "search_codebase"],
        maxLoops := some 3 }
  | .refactor =>
      { type := .refactor, name := "重构代理",
        systemPrompt := "你是重构专家代理，专门负责：
1. 识别代码异味和技术债务
2. 提取公共代码和创建可复用模块
3. 优化代码结构和性能
4. 保持功能不变的前提下改进代码

你应该：
- 遵循 SOLID 原则
- 保持向后兼容性
- 分步骤进行重构，每步都可验证
- 提供重构前后的对比",
        availableTools := ["list_files", "read_file", "write_file",
          "search_codebase"],
        maxLoops := some 6 }
  | .custom =>
      { type := .custom, name := "自定义代理",
        systemPrompt := "你是一个自定义代理，请按照用户的指示工作。",
        availableTools := ["list_files", "read_file", "write_file",
          "run_command", "search_codebase"] }

/-- The key lookup `AGENT_PRESETS[typeStr.toLowerCase()]`: only the
five preset names resolve to an `AgentType`. -/
def agentTypeOfString (s : String) : Option AgentType :=
  if s = "main" then some .main
  else if s = "test" then some .test
  else if s = "review" then some .review
  else if s = "refactor" then some .refactor
  else if s = "custom" then some .custom
  else none

/-- `parseAgentCommand` (`src/agent/sub-agent.ts` lines 145-163),
modelling `/^@(\w+)\s*(.*)?$/`: a leading `@`, a non-empty greedy run
of word characters, a greedy run of whitespace, and a newline-free
remainder (captured as the message, then trimmed; `''` when absent). -/
def parseAgentCommand (input : String) : Option (AgentType × String) :=
  match input.data with
  | '@' :: rest =>
      let typeChars := rest.takeWhile isWordChar
      if typeChars.isEmpty then none
      else
        let afterType := rest.drop typeChars.length
        let afterSpace := afterType.dropWhile isSpaceChar
        if afterSpace.any (· = '\n') then none
        else
          match agentTypeOfString (jsToLower ⟨typeChars⟩) with
          | none => none
          | some type => some (type, jsTrim ⟨afterSpace⟩)
  | _ => none

/-! ## `AgentManager` (`src/agent/index.ts` lines 298-397) -/

/-- The JS `Map<string, Agent>` of sub-agents, as an association
list. -/
def mapSet (m : List (String × AgentM)) (k : String) (v : AgentM) :
    List (String × AgentM) :=
  if m.any (fun kv => kv.1 = k) then
    m.map (fun kv => if kv.1 = k then (k, v) else kv)
  else m ++ [(k, v)]

def mapDelete (m : List (String × AgentM)) (k : String) :
    List (String × AgentM) :=
  m.filter (fun kv => kv.1 ≠ k)

structure ManagerState where
  mainAgent : AgentM
  subAgents : List (String × AgentM) := []
  projectContext : Option String := none
  deriving Repr

/-- `AgentManager.createSubAgent` (`src/agent/index.ts` lines
339-348): a fresh `Agent` from the preset (empty history, not
running), inheriting the manager's project-context snapshot.
`freshId` stands for the random `generateId()`. -/
def createSubAgent (freshId : String) (type : AgentType)
    (projectContext : Option String) : AgentM :=
  { id := freshId, config := getAgentConfig type, messages := [],
    isRunning := false, projectContext := projectContext }

/-- `AgentManager.handleInput` (`src/agent/index.ts` lines 368-388):
directive inputs spawn a sub-agent that is run on the remainder (or a
default greeting when the remainder is empty, via JS `||`) and removed
from the manager in a `finally` block; everything else goes to the
main agent. -/
def handleInput (llm : List Message → Except String LLMResp)
    (toolExec : ToolCall → ToolResult) (appConfig : AppConfig)
    (freshId : String) (st : ManagerState) (input : String) :
    RunResult × ManagerState :=
  match parseAgentCommand input with
  | some (type, message) =>
      let subAgent := createSubAgent freshId type st.projectContext
      let st1 := { st with subAgents := mapSet st.subAgents freshId subAgent }
      let firstMessage := if message = "" then "请开始工作" else message
      let out := agentRun llm toolExec appConfig subAgent firstMessage
      (out.result, { st1 with subAgents := mapDelete st1.subAgents freshId })
  | none =>
      let out := agentRun llm toolExec appConfig st.mainAgent input
      (out.result, { st with mainAgent := out.agent })

/-! ## Provider adapters (`src/llm/kimi.ts`, OpenAI native adapter,
Anthropic native adapter) -/

/-- `buildSystemPrompt` (`src/llm/system-prompt.ts`): a fixed
instruction text shared by every adapter; its wording is irrelevant to
the claims, so an abridged constant stands for the full string. -/
def buildSystemPrompt : String :=
  "你是 Ghostwriter，一个强大的本地 AI 编程助手。你的核心能力是通过工具直接操作用户的文件系统来完成编程任务。"

/-- One wire message of the OpenAI-compatible (Kimi/OpenAI/Grok)
`chat/completions` request. -/
structure OpenAIWireMessage where
  role : Role
  content : Option String
  name : Option String := none
  tool_call_id : Option String := none
  tool_calls : List ToolCall := []
  deriving DecidableEq, Repr

/-- The per-message rendering shared by the loop bodies of the
OpenAI-compatible native `convertMessages` (`src/llm/kimi.ts` lines
67-101 and unnamed source `part_002` lines 67-101): each canonical
message becomes exactly one wire message of the same role — including
each canonical `system` message as its own wire `system` message. -/
def openaiWireOf (msg : Message) : OpenAIWireMessage :=
  match msg.role with
  | .system => { role := .system, content := some msg.content }
  | .user => { role := .user, content := some msg.content }
  | .assistant =>
      { role := .assistant,
        content := if msg.content = "" then none else some msg.content,
        tool_calls := msg.tool_calls }
  | .tool =>
      { role := .tool, content := some msg.content,
        tool_call_id := some (msg.tool_call_id.getD "") }

/-- `convertMessages` of the native Kimi adapter (`src/llm/kimi.ts`
lines 58-104): the base system prompt is pushed first, then every
canonical message is rendered in order. -/
def kimiConvertMessages (messages : List Message) : List OpenAIWireMessage :=
  { role := .system, content := some buildSystemPrompt } ::
    messages.map openaiWireOf

/-- `convertMessages` of the native OpenAI/Grok adapter (unnamed
source `part_002`, lines 58-104); textually identical to the Kimi
conversion. -/
def openaiConvertMessages (messages : List Message) : List OpenAIWireMessage :=
  { role := .system, content := some buildSystemPrompt } ::
    messages.map openaiWireOf

/-- Anthropic content blocks. -/
inductive AnthBlock where
  | text (t : String)
  | toolUse (id name input : String)
  | toolResult (tool_use_id content : String)
  deriving DecidableEq, Repr

inductive AnthContent where
  | str (s : String)
  | blocks (l : List AnthBlock)
  deriving DecidableEq, Repr

/-- One wire message of the Anthropic `messages` request.  The role is
kept in the four-valued canonical type to make "no system role ever
appears" a provable statement; the source's type only admits `user`
and `assistant`. -/
structure AnthMessage where
  role : Role
  content : AnthContent
  deriving DecidableEq, Repr

/-- Append a `tool_result` block to the wire list, merging into a
trailing `user` message when one exists (Anthropic adapter, unnamed
source `part_000`, lines 75-101). -/
def anthPushToolResult (result : List AnthMessage) (block : AnthBlock) :
    List AnthMessage :=
  match result.getLast? with
  | some lastMsg =>
      if lastMsg.role = .user then
        let merged :=
          match lastMsg.content with
          | .blocks l => { lastMsg with content := .blocks (l ++ [block]) }
          | .str s => { lastMsg with content := .blocks [.text s, block] }
        result.dropLast ++ [merged]
      else result ++ [{ role := .user, content := .blocks [block] }]
  | none => result ++ [{ role := .user, content := .blocks [block] }]

/-- One iteration of the conversion loop of the native Anthropic
adapter (unnamed source `part_000`, lines 41-102): canonical `system`
messages are skipped (they go into the separate `system` parameter),
assistant turns become text/`tool_use` block messages (dropped when
empty), and tool results become merged `tool_result` blocks. -/
def anthConvertStep (result : List AnthMessage) (msg : Message) :
    List AnthMessage :=
  match msg.role with
  | .system => result
  | .user => result ++ [{ role := .user, content := .str msg.content }]
  | .assistant =>
      let contentBlocks :=
        (if msg.content = "" then [] else [AnthBlock.text msg.content]) ++
          msg.tool_calls.map (fun tc => AnthBlock.toolUse tc.id tc.name tc.arguments)
      if contentBlocks.isEmpty then result
      else result ++ [{ role := .assistant, content := .blocks contentBlocks }]
  | .tool =>
      anthPushToolResult result
        (.toolResult (msg.tool_call_id.getD "") msg.content)

/-- `convertMessages` of the native Anthropic adapter (unnamed source
`part_000`, lines 38-113): the conversion loop, then a placeholder
user greeting prepended when the list does not start with a user
turn. -/
def anthropicConvertMessages (messages : List Message) : List AnthMessage :=
  let result := messages.foldl anthConvertStep []
  match result.head? with
  | some first =>
      if first.role = .user then result
      else { role := .user, content := .str "你好，请准备好帮助我。" } :: result
  | none => { role := .user, content := .str "你好，请准备好帮助我。" } :: result

/-- The single `system` parameter of the Anthropic request
(`callAnthropic`, unnamed source `part_000`, lines 129-145): the base
prompt, extended with all canonical `system` messages joined by blank
lines. -/
def anthropicFullSystemPrompt (messages : List Message) : String :=
  let systemMessages := messages.filter (fun m => m.role = .system)
  if systemMessages.length > 0 then
    buildSystemPrompt ++ "\n\n" ++
      String.intercalate "\n\n" (systemMessages.map (·.content))
  else buildSystemPrompt

/-- The parts of the Anthropic request body relevant to system-payload
accounting. -/
structure AnthropicRequest where
  system : String
  messages : List AnthMessage
  deriving DecidableEq, Repr

/-- Request assembly of `callAnthropic`. -/
def mkAnthropicRequest (messages : List Message) : AnthropicRequest :=
  { system := anthropicFullSystemPrompt messages
    messages := anthropicConvertMessages messages }

/-! ## Helper lemmas -/

theorem listIsPrefixOfAppend (a b : List Char) : a.isPrefixOf (a ++ b) = true := by
  induction a with
  | nil => simp [List.isPrefixOf]
  | cons c cs ih => simp [List.isPrefixOf, ih]

theorem listIsPrefixOfSelf (a : List Char) : a.isPrefixOf a = true := by
  induction a with
  | nil => simp [List.isPrefixOf]
  | cons c cs ih => simp [List.isPrefixOf, ih]

theorem strStartsWith_of_ancestorOrEqual (p wd : String)
    (h : isAncestorOrEqual p wd) : strStartsWith wd p = true := by
  rcases h with h | ⟨rest, h⟩ | ⟨hp, rest, h⟩
  · subst h
    simp [strStartsWith, listIsPrefixOfSelf]
  · subst h
    simp only [strStartsWith, String.data_append]
    rw [List.append_assoc]
    exact listIsPrefixOfAppend p.data ('/' :: rest.data)
  · subst h; subst hp
    simp only [strStartsWith, String.data_append]
    exact listIsPrefixOfAppend ['/'] rest.data

/-- With a non-empty dangerous command, the `run_command` gate always
reaches the interactive prompt, whatever the whitelist and the
auto-confirm flag say. -/
theorem runCommandGate_dangerous_prompts (command : String)
    (config : AppConfig) (userAnswer : Bool)
    (hdang : isDangerousCommand command = true)
    (htrim : jsTrim command ≠ "") :
    (runCommandGate command config userAnswer).prompted = true := by
  unfold runCommandGate
  rw [if_neg htrim]
  simp only [hdang, confirmAction]
  cases userAnswer <;> simp

/-! ## Claim theorems -/

/-- C3: a write/delete path whose normalized form contains a
`deny_paths` entry as a substring is always blocked, regardless of the
allow-list; and a non-denied path is additionally blocked whenever the
allow-list is non-empty and no allow entry is a prefix of it. -/
theorem deny_paths_precede_allow_list (filePath : String) (config : AppConfig) :
    ((∃ d ∈ config.project.deny_paths,
        strIncludes (pathNormalize filePath) d = true) →
      isPathAllowedForWrite filePath config = false) ∧
    ((∀ d ∈ config.project.deny_paths,
        strIncludes (pathNormalize filePath) d = false) →
      config.project.allow_write_paths ≠ [] →
      (∀ a ∈ config.project.allow_write_paths,
        strStartsWith (pathNormalize filePath) a = false) →
      isPathAllowedForWrite filePath config = false) := by
  constructor
  · rintro ⟨d, hd, hinc⟩
    have h : (config.project.deny_paths.any fun denied =>
        strIncludes (pathNormalize filePath) denied) = true :=
      List.any_eq_true.mpr ⟨d, hd, hinc⟩
    simp [isPathAllowedForWrite, h]
  · intro hnod hne hnall
    have h1 : (config.project.deny_paths.any fun denied =>
        strIncludes (pathNormalize filePath) denied) = false := by
      simp only [List.any_eq_false]
      intro d hd
      simp [hnod d hd]
    have h2 : (config.project.allow_write_paths.any fun allowed =>
        strStartsWith (pathNormalize filePath) allowed) = false := by
      simp only [List.any_eq_false]
      intro a ha
      simp [hnall a ha]
    have h3 : 0 < config.project.allow_write_paths.length :=
      List.length_pos.mpr hne
    simp [isPathAllowedForWrite, h1, h2, h3]

def llmConfigW : LLMConfig :=
  { provider := "kimi", model := "kimi-k2-turbo-preview" }

def configC3 : AppConfig :=
  { workingDirectory := "/proj", autoConfirm := false, llm := llmConfigW,
    project := { allow_commands := [], allow_write_paths := ["/proj/src"],
                 deny_paths := ["node_modules", ".git", ".env", ".env.local"] },
    maxToolLoops := 8, debug := false }

/-- C3 witness: `/proj/src/node_modules/a.js` matches the allow prefix
`/proj/src` and is still blocked by the `node_modules` deny entry. -/
theorem deny_paths_precede_allow_list_witness :
    (∃ d ∈ configC3.project.deny_paths,
        strIncludes (pathNormalize "/proj/src/node_modules/a.js") d = true) ∧
    strStartsWith (pathNormalize "/proj/src/node_modules/a.js") "/proj/src" = true ∧
    isPathAllowedForWrite "/proj/src/node_modules/a.js" configC3 = false :=
  ⟨⟨"node_modules", by decide, by decide⟩, by decide,
    (deny_paths_precede_allow_list "/proj/src/node_modules/a.js" configC3).1
      ⟨"node_modules", by decide, by decide⟩⟩

/-- C4: `"rm -rf /"` matches the dangerous-command patterns, and for
every whitelist and auto-confirm configuration the `run_command` gate
still reaches the interactive confirmation prompt on it. -/
theorem rm_rf_always_dangerous :
    isDangerousCommand "rm -rf /" = true ∧
    ∀ (config : AppConfig) (userAnswer : Bool),
      (runCommandGate "rm -rf /" config userAnswer).prompted = true :=
  ⟨by decide, fun config userAnswer =>
    runCommandGate_dangerous_prompts "rm -rf /" config userAnswer
      (by decide) (by decide)⟩

/-- C5: dispatch through `ToolManager.executeTool` runs the builtin
implementation whenever a builtin tool of the call's name exists, and
the MCP path is reached only when the builtin lookup misses. -/
theorem builtin_wins_dispatch (getBuiltinTool : String → Option BuiltinTool)
    (mcpEnabled : Bool) (mcpCall : String → String → Except String ToolResult)
    (toolCall : ToolCall) :
    (∀ t, getBuiltinTool toolCall.name = some t →
      (managerExecuteTool getBuiltinTool mcpEnabled mcpCall toolCall).2 =
        ExecRoute.builtinRoute) ∧
    ((managerExecuteTool getBuiltinTool mcpEnabled mcpCall toolCall).2 =
        ExecRoute.mcpRoute →
      getBuiltinTool toolCall.name = none) := by
  unfold managerExecuteTool
  cases hb : getBuiltinTool toolCall.name with
  | some t =>
      constructor
      · intro t' _
        cases hrun : t.run toolCall.arguments <;> simp [hrun]
      · intro hroute
        exfalso
        cases hrun : t.run toolCall.arguments <;> simp [hrun] at hroute
  | none =>
      constructor
      · intro t' h
        exact absurd h (by simp)
      · intro _
        rfl

def builtinSearchTool : BuiltinTool :=
  ⟨fun _ => .ok ⟨true, "matches", none⟩⟩

def getBuiltinW : String → Option BuiltinTool :=
  fun n => if n = "search_codebase" then some builtinSearchTool else none

def mcpCallW : String → String → Except String ToolResult :=
  fun _ _ => .ok ⟨true, "mcp", none⟩

/-- C5 witness: with a builtin and an MCP tool both named
`search_codebase`, dispatch takes the builtin route. -/
theorem builtin_wins_dispatch_witness :
    (managerExecuteTool getBuiltinW true mcpCallW
      { id := "1", name := "search_codebase" }).2 = ExecRoute.builtinRoute :=
  (builtin_wins_dispatch getBuiltinW true mcpCallW
    { id := "1", name := "search_codebase" }).1 builtinSearchTool rfl

/-- C6: `delete_file` never reaches the deletion step on a resolved
path that equals the working directory or one of its ancestors; the
invocation ends in a failed result. -/
theorem delete_refuses_workdir_ancestor (filePath : String)
    (config : AppConfig) (env : DeleteEnv)
    (h : isAncestorOrEqual (pathResolve config.workingDirectory filePath)
          config.workingDirectory) :
    (deleteFileExecuteGate filePath config env).outcome ≠ DeleteOutcome.deleted ∧
    deleteOutcomeSuccess (deleteFileExecuteGate filePath config env).outcome = false := by
  have hsw := strStartsWith_of_ancestorOrEqual _ _ h
  unfold deleteFileExecuteGate
  by_cases hfp : filePath = ""
  · simp [hfp, deleteOutcomeSuccess]
  · rw [if_neg hfp]
    cases hpol : isPathAllowedForWrite (pathResolve config.workingDirectory filePath) config <;>
      simp [hpol, hsw, deleteOutcomeSuccess]

def configC6 : AppConfig :=
  { workingDirectory := "/home/user/proj", autoConfirm := false, llm := llmConfigW,
    project := {}, maxToolLoops := 8, debug := false }

def envC6 : DeleteEnv :=
  { pathExists := true, isDirectory := true, userAnswer := true }

/-- C6 witness: deleting `".."` from `/home/user/proj` resolves to the
parent directory `/home/user` and is refused. -/
theorem delete_refuses_workdir_ancestor_witness :
    isAncestorOrEqual (pathResolve configC6.workingDirectory "..")
      configC6.workingDirectory ∧
    (deleteFileExecuteGate ".." configC6 envC6).outcome ≠ DeleteOutcome.deleted :=
  have hanc : isAncestorOrEqual (pathResolve configC6.workingDirectory "..")
      configC6.workingDirectory :=
    Or.inr (Or.inl ⟨"proj", by decide⟩)
  ⟨hanc, (delete_refuses_workdir_ancestor ".." configC6 envC6 hanc).1⟩

/-- C7: a `run_command` invocation whose subprocess outlives its
timeout is SIGKILLed and still resolves to a `success: true` tool
result carrying the partial stdout, the timeout note appended to
stderr, and exit code `-1`. -/
theorem timeout_is_truncated_success (command : String) (config : AppConfig)
    (userAnswer : Bool) (proc : ProcBehavior)
    (hexec : (runCommandGate command config userAnswer).outcome = RunCmdOutcome.executed)
    (htimeout : proc.timedOut = true) :
    runCommandExecute command config userAnswer proc =
      ({ success := true,
         data := some { stdout := proc.stdoutData,
                        stderr := proc.stderrData ++ "\n[命令执行超时，已终止]",
                        code := -1 },
         error := none },
       (runCommandGate command config userAnswer).prompted, true) := by
  unfold runCommandExecute
  simp [hexec, executeCommandModel, htimeout]

def configC7 : AppConfig :=
  { workingDirectory := "/proj", autoConfirm := false, llm := llmConfigW,
    project := {}, maxToolLoops := 8, debug := false }

def procC7 : ProcBehavior :=
  { stdoutData := "partial output", stderrData := "", exitCode := none,
    timedOut := true }

/-- C7 witness: a confirmed `sleep 60` that times out yields the
truncated-success result. -/
theorem timeout_is_truncated_success_witness :
    (runCommandGate "sleep 60" configC7 true).outcome = RunCmdOutcome.executed ∧
    runCommandExecute "sleep 60" configC7 true procC7 =
      ({ success := true,
         data := some { stdout := "partial output",
                        stderr := "\n[命令执行超时，已终止]",
                        code := -1 },
         error := none },
       (runCommandGate "sleep 60" configC7 true).prompted, true) :=
  ⟨by decide,
    timeout_is_truncated_success "sleep 60" configC7 true procC7 (by decide) (by decide)⟩

/-- C1: the confirmation prompt is always consulted before a high-risk
action executes — `delete_file` (statically `high`) only deletes after
a prompt, `run_command` only executes a dangerous command after a
prompt, and the injected `confirmAction` callback short-circuits under
auto-confirm exactly for the non-`high` risk levels. -/
theorem high_risk_always_confirms :
    (∀ (config : AppConfig) (env : DeleteEnv) (filePath : String),
      (deleteFileExecuteGate filePath config env).outcome = DeleteOutcome.deleted →
      (deleteFileExecuteGate filePath config env).prompted = true) ∧
    (∀ (config : AppConfig) (command : String) (userAnswer : Bool),
      isDangerousCommand command = true →
      (runCommandGate command config userAnswer).outcome = RunCmdOutcome.executed →
      (runCommandGate command config userAnswer).prompted = true) ∧
    (∀ (autoConfirm userAnswer : Bool),
      confirmAction autoConfirm RiskLevel.high userAnswer = (true, userAnswer)) := by
  refine ⟨?_, ?_, ?_⟩
  · intro config env filePath hdel
    simp only [deleteFileExecuteGate, confirmAction] at hdel ⊢
    split_ifs at hdel ⊢ <;> simp_all
  · intro config command userAnswer hdang hexec
    by_cases htrim : jsTrim command = ""
    · simp [runCommandGate, htrim] at hexec
    · exact runCommandGate_dangerous_prompts command config userAnswer hdang htrim
  · intro autoConfirm userAnswer
    simp [confirmAction]

def configC1 : AppConfig :=
  { workingDirectory := "/home/user/proj", autoConfirm := true, llm := llmConfigW,
    project := {}, maxToolLoops := 8, debug := false }

def envC1 : DeleteEnv :=
  { pathExists := true, isDirectory := false, userAnswer := true }

/-- C1 witness: under global auto-confirm, a completed deletion and an
executed `sudo` command have both passed through the prompt. -/
theorem high_risk_always_confirms_witness :
    (deleteFileExecuteGate "src/tmp.txt" configC1 envC1).outcome = DeleteOutcome.deleted ∧
    (deleteFileExecuteGate "src/tmp.txt" configC1 envC1).prompted = true ∧
    isDangerousCommand "sudo reboot" = true ∧
    (runCommandGate "sudo reboot" configC1 true).outcome = RunCmdOutcome.executed ∧
    (runCommandGate "sudo reboot" configC1 true).prompted = true :=
  ⟨by decide,
   high_risk_always_confirms.1 configC1 envC1 "src/tmp.txt" (by decide),
   by decide, by decide,
   high_risk_always_confirms.2.1 configC1 "sudo reboot" true (by decide) (by decide)⟩

/-! ## Loop lemmas for C2 and C10 -/

theorem runAux_succ_error (llm : List Message → Except String LLMResp)
    (toolExec : ToolCall → ToolResult) (r : Nat) (st : AgentM) (fr : String)
    (calls : Nat) (lr : Option String) (e : String)
    (hllm : llm (buildMessagesWithContext st) = .error e) :
    runAux llm toolExec (r + 1) st fr calls lr =
      { result := .err e, agent := { st with isRunning := false },
        calls := calls + 1, noToolBreak := false, lastResponse := lr } := by
  unfold runAux
  rw [hllm]

theorem runAux_succ_break (llm : List Message → Except String LLMResp)
    (toolExec : ToolCall → ToolResult) (r : Nat) (st : AgentM) (fr : String)
    (calls : Nat) (lr : Option String) (resp : LLMResp)
    (hllm : llm (buildMessagesWithContext st) = .ok resp)
    (hempty : resp.tool_calls.isEmpty = true) :
    runAux llm toolExec (r + 1) st fr calls lr =
      { result := .ok resp.response,
        agent := { addMessage st
          { role := .assistant, content := stringifyLLMResp resp } with
            isRunning := false },
        calls := calls + 1, noToolBreak := true,
        lastResponse := some resp.response } := by
  unfold runAux
  rw [hllm]
  simp [hempty]

theorem runAux_succ_step (llm : List Message → Except String LLMResp)
    (toolExec : ToolCall → ToolResult) (r : Nat) (st : AgentM) (fr : String)
    (calls : Nat) (lr : Option String) (resp : LLMResp)
    (hllm : llm (buildMessagesWithContext st) = .ok resp)
    (hempty : resp.tool_calls.isEmpty = false) :
    runAux llm toolExec (r + 1) st fr calls lr =
      runAux llm toolExec r
        (addMessage
          (addMessage st { role := .assistant, content := stringifyLLMResp resp })
          { role := .tool,
            content := toolResultsContent
              (resp.tool_calls.map fun tc => (tc.name, toolExec tc)),
            name := some "tool_results" })
        resp.response (calls + 1) (some resp.response) := by
  conv_lhs => unfold runAux
  rw [hllm]
  simp [hempty]

theorem runAux_calls_bound (llm : List Message → Except String LLMResp)
    (toolExec : ToolCall → ToolResult) (remaining : Nat) :
    ∀ (st : AgentM) (fr : String) (calls : Nat) (lr : Option String),
      (runAux llm toolExec remaining st fr calls lr).calls ≤ calls + remaining ∧
      ((runAux llm toolExec remaining st fr calls lr).noToolBreak = true ∨
        (∃ e, (runAux llm toolExec remaining st fr calls lr).result = RunResult.err e) ∨
        (runAux llm toolExec remaining st fr calls lr).calls = calls + remaining) := by
  induction remaining with
  | zero =>
      intro st fr calls lr
      simp [runAux]
  | succ r ih =>
      intro st fr calls lr
      unfold runAux
      cases hllm : llm (buildMessagesWithContext st) with
      | error e =>
          constructor
          · simp only []
            omega
          · exact Or.inr (Or.inl ⟨e, by simp only []⟩)
      | ok resp =>
          by_cases hempty : resp.tool_calls.isEmpty
          · constructor
            · simp only [hempty, if_true]
              omega
            · exact Or.inl (by simp only [hempty, if_true])
          · have ih1 := ih (addMessage
              (addMessage st { role := .assistant, content := stringifyLLMResp resp })
              { role := .tool,
                content := toolResultsContent
                  (resp.tool_calls.map fun tc => (tc.name, toolExec tc)),
                name := some "tool_results" }) resp.response (calls + 1)
              (some resp.response)
            simp only [hempty, Bool.and_false, if_false, Bool.false_eq_true]
            refine ⟨by omega, ?_⟩
            rcases ih1.2 with h | h | h
            · exact Or.inl h
            · exact Or.inr (Or.inl h)
            · exact Or.inr (Or.inr (by omega))

theorem runAux_calls_mono (llm : List Message → Except String LLMResp)
    (toolExec : ToolCall → ToolResult) (remaining : Nat) :
    ∀ (st : AgentM) (fr : String) (calls : Nat) (lr : Option String),
      calls ≤ (runAux llm toolExec remaining st fr calls lr).calls := by
  induction remaining with
  | zero =>
      intro st fr calls lr
      simp [runAux]
  | succ r ih =>
      intro st fr calls lr
      unfold runAux
      cases hllm : llm (buildMessagesWithContext st) with
      | error e => simp
      | ok resp =>
          by_cases hempty : resp.tool_calls.isEmpty
          · simp [hempty]
          · simp only [hempty, Bool.and_false, if_false, Bool.false_eq_true]
            have := ih (addMessage
              (addMessage st { role := .assistant, content := stringifyLLMResp resp })
              { role := .tool,
                content := toolResultsContent
                  (resp.tool_calls.map fun tc => (tc.name, toolExec tc)),
                name := some "tool_results" }) resp.response (calls + 1)
              (some resp.response)
            omega

theorem runAux_one_call (llm : List Message → Except String LLMResp)
    (toolExec : ToolCall → ToolResult) (r : Nat) (st : AgentM) (fr : String)
    (calls : Nat) (lr : Option String) :
    calls + 1 ≤ (runAux llm toolExec (r + 1) st fr calls lr).calls := by
  unfold runAux
  cases hllm : llm (buildMessagesWithContext st) with
  | error e => simp
  | ok resp =>
      by_cases hempty : resp.tool_calls.isEmpty
      · simp [hempty]
      · simp only [hempty, Bool.and_false, if_false, Bool.false_eq_true]
        have := runAux_calls_mono llm toolExec r (addMessage
          (addMessage st { role := .assistant, content := stringifyLLMResp resp })
          { role := .tool,
            content := toolResultsContent
              (resp.tool_calls.map fun tc => (tc.name, toolExec tc)),
            name := some "tool_results" }) resp.response (calls + 1)
          (some resp.response)
        omega

theorem runAux_last_response (llm : List Message → Except String LLMResp)
    (toolExec : ToolCall → ToolResult) (remaining : Nat) :
    ∀ (st : AgentM) (fr : String) (calls : Nat) (lr : Option String),
      (lr = some fr ∨ (calls = 0 ∧ lr = none)) →
      ∀ s, (runAux llm toolExec remaining st fr calls lr).result = RunResult.ok s →
        (runAux llm toolExec remaining st fr calls lr).noToolBreak = false →
        ((runAux llm toolExec remaining st fr calls lr).lastResponse = some s ∨
          (runAux llm toolExec remaining st fr calls lr).calls = 0) := by
  induction remaining with
  | zero =>
      intro st fr calls lr hinv s hok _
      simp only [runAux] at hok ⊢
      rcases hinv with h | ⟨hc, hl⟩
      · cases hok
        exact Or.inl h
      · exact Or.inr hc
  | succ r ih =>
      intro st fr calls lr hinv s hok hbrk
      cases hllm : llm (buildMessagesWithContext st) with
      | error e =>
          rw [runAux_succ_error llm toolExec r st fr calls lr e hllm] at hok
          simp at hok
      | ok resp =>
          by_cases hempty : resp.tool_calls.isEmpty
          · rw [runAux_succ_break llm toolExec r st fr calls lr resp hllm hempty] at hbrk
            simp at hbrk
          · rw [runAux_succ_step llm toolExec r st fr calls lr resp hllm
              (by simpa using hempty)] at hok hbrk ⊢
            exact ih _ resp.response (calls + 1) (some resp.response)
              (Or.inl rfl) s hok hbrk

/-- C2: for every effective loop cap `N ≥ 1`, one `Agent.run` performs
at most `N` LLM-client calls and terminates either on a zero-tool-call
turn, by a propagated provider error, or by hitting the cap — and a
cap-forced termination returns the last model turn's text. -/
theorem loop_bounded_and_terminates
    (llm : List Message → Except String LLMResp) (toolExec : ToolCall → ToolResult)
    (appConfig : AppConfig) (agent : AgentM) (userMessage : String)
    (hN : 1 ≤ jsOrNat agent.config.maxLoops appConfig.maxToolLoops) :
    (agentRun llm toolExec appConfig agent userMessage).calls ≤
      jsOrNat agent.config.maxLoops appConfig.maxToolLoops ∧
    ((agentRun llm toolExec appConfig agent userMessage).noToolBreak = true ∨
      (∃ e, (agentRun llm toolExec appConfig agent userMessage).result = RunResult.err e) ∨
      (agentRun llm toolExec appConfig agent userMessage).calls =
        jsOrNat agent.config.maxLoops appConfig.maxToolLoops) ∧
    (∀ s, (agentRun llm toolExec appConfig agent userMessage).result = RunResult.ok s →
      (agentRun llm toolExec appConfig agent userMessage).noToolBreak = false →
      (agentRun llm toolExec appConfig agent userMessage).calls =
          jsOrNat agent.config.maxLoops appConfig.maxToolLoops ∧
        (agentRun llm toolExec appConfig agent userMessage).lastResponse = some s) := by
  have hb := runAux_calls_bound llm toolExec
    (jsOrNat agent.config.maxLoops appConfig.maxToolLoops)
    (addMessage { agent with isRunning := true } { role := .user, content := userMessage })
    "" 0 none
  have hl := runAux_last_response llm toolExec
    (jsOrNat agent.config.maxLoops appConfig.maxToolLoops)
    (addMessage { agent with isRunning := true } { role := .user, content := userMessage })
    "" 0 none (Or.inr ⟨rfl, rfl⟩)
  have heq : agentRun llm toolExec appConfig agent userMessage =
      runAux llm toolExec (jsOrNat agent.config.maxLoops appConfig.maxToolLoops)
        (addMessage { agent with isRunning := true }
          { role := .user, content := userMessage }) "" 0 none := by
    simp [agentRun, addMessage]
  rw [heq]
  refine ⟨by simpa using hb.1, by simpa using hb.2, ?_⟩
  intro s hok hbrk
  have hcalls : (runAux llm toolExec (jsOrNat agent.config.maxLoops appConfig.maxToolLoops)
      (addMessage { agent with isRunning := true }
        { role := .user, content := userMessage }) "" 0 none).calls =
      jsOrNat agent.config.maxLoops appConfig.maxToolLoops := by
    rcases hb.2 with h | ⟨e, he⟩ | h
    · rw [hbrk] at h
      cases h
    · rw [hok] at he
      cases he
    · simpa using h
  refine ⟨hcalls, ?_⟩
  rcases hl s hok hbrk with h | h
  · exact h
  · omega

def configC2 : AppConfig :=
  { workingDirectory := "/proj", autoConfirm := false, llm := llmConfigW,
    project := {}, maxToolLoops := 8, debug := false }

def llmStopW : List Message → Except String LLMResp :=
  fun _ => .ok { response := "done" }

def toolExecW : ToolCall → ToolResult :=
  fun _ => { success := true, data := "ok" }

def agentMainW : AgentM :=
  { id := "a1", config := getAgentConfig .main, messages := [], isRunning := false }

/-- C2 witness: the main agent under the default cap of 8. -/
theorem loop_bounded_and_terminates_witness :
    1 ≤ jsOrNat agentMainW.config.maxLoops configC2.maxToolLoops ∧
    ((agentRun llmStopW toolExecW configC2 agentMainW "你好").calls ≤
        jsOrNat agentMainW.config.maxLoops configC2.maxToolLoops ∧
      ((agentRun llmStopW toolExecW configC2 agentMainW "你好").noToolBreak = true ∨
        (∃ e, (agentRun llmStopW toolExecW configC2 agentMainW "你好").result =
          RunResult.err e) ∨
        (agentRun llmStopW toolExecW configC2 agentMainW "你好").calls =
          jsOrNat agentMainW.config.maxLoops configC2.maxToolLoops) ∧
      (∀ s, (agentRun llmStopW toolExecW configC2 agentMainW "你好").result =
          RunResult.ok s →
        (agentRun llmStopW toolExecW configC2 agentMainW "你好").noToolBreak = false →
        (agentRun llmStopW toolExecW configC2 agentMainW "你好").calls =
            jsOrNat agentMainW.config.maxLoops configC2.maxToolLoops ∧
          (agentRun llmStopW toolExecW configC2 agentMainW "你好").lastResponse =
            some s)) :=
  ⟨by decide,
    loop_bounded_and_terminates llmStopW toolExecW configC2 agentMainW "你好" (by decide)⟩

/-- C10: an agent config with `maxLoops = 0` does not disable the
loop — the JS `||` fallback treats `0` as omitted, so the process
default `maxToolLoops = 8` from `createAppConfig` applies and the run
makes between 1 and 8 LLM calls. -/
theorem zero_maxLoops_falls_back_to_default
    (llm : List Message → Except String LLMResp) (toolExec : ToolCall → ToolResult)
    (options : AppConfigOptions) (cwd : String) (projectConfig : ProjectConfig)
    (llmConfig : LLMConfig) (agent : AgentM) (userMessage : String)
    (hzero : agent.config.maxLoops = some 0) :
    jsOrNat agent.config.maxLoops
      (createAppConfig options cwd projectConfig llmConfig).maxToolLoops = 8 ∧
    1 ≤ (agentRun llm toolExec (createAppConfig options cwd projectConfig llmConfig)
          agent userMessage).calls ∧
    (agentRun llm toolExec (createAppConfig options cwd projectConfig llmConfig)
        agent userMessage).calls ≤ 8 := by
  have h8 : jsOrNat agent.config.maxLoops
      (createAppConfig options cwd projectConfig llmConfig).maxToolLoops = 8 := by
    rw [hzero]
    rfl
  have hz' : (addMessage { agent with isRunning := true }
      { role := Role.user, content := userMessage }).config.maxLoops = some 0 := hzero
  have heq : agentRun llm toolExec (createAppConfig options cwd projectConfig llmConfig)
      agent userMessage =
      runAux llm toolExec 8
        (addMessage { agent with isRunning := true }
          { role := .user, content := userMessage }) "" 0 none := by
    simp only [agentRun]
    rw [hz']
    rfl
  refine ⟨h8, ?_, ?_⟩
  · rw [heq]
    have h1 : 0 + 1 ≤ (runAux llm toolExec 8
        (addMessage { agent with isRunning := true }
          { role := .user, content := userMessage }) "" 0 none).calls :=
      runAux_one_call llm toolExec 7
        (addMessage { agent with isRunning := true }
          { role := .user, content := userMessage }) "" 0 none
    omega
  · rw [heq]
    have := (runAux_calls_bound llm toolExec 8
      (addMessage { agent with isRunning := true }
        { role := .user, content := userMessage }) "" 0 none).1
    omega

def agentZeroW : AgentM :=
  { id := "z1",
    config := { type := .custom, name := "zero", systemPrompt := "",
                availableTools := [], maxLoops := some 0 },
    messages := [], isRunning := false }

/-- C10 witness: a `maxLoops = 0` agent under a default app config. -/
theorem zero_maxLoops_falls_back_to_default_witness :
    agentZeroW.config.maxLoops = some 0 ∧
    jsOrNat agentZeroW.config.maxLoops
      (createAppConfig {} "/proj" {} llmConfigW).maxToolLoops = 8 ∧
    1 ≤ (agentRun llmStopW toolExecW (createAppConfig {} "/proj" {} llmConfigW)
          agentZeroW "你好").calls ∧
    (agentRun llmStopW toolExecW (createAppConfig {} "/proj" {} llmConfigW)
        agentZeroW "你好").calls ≤ 8 :=
  ⟨rfl, zero_maxLoops_falls_back_to_default llmStopW toolExecW {} "/proj" {} llmConfigW
    agentZeroW "你好" rfl⟩

/-! ## C8: system-payload accounting of the provider adapters -/

theorem dropLast_append_of_getLast? {α : Type} (l : List α) (a : α)
    (h : l.getLast? = some a) : l.dropLast ++ [a] = l := by
  induction l with
  | nil => cases h
  | cons x xs ih =>
      cases xs with
      | nil =>
          simp [List.getLast?] at h
          simp [h]
      | cons y ys =>
          rw [List.getLast?_cons_cons] at h
          simp only [List.dropLast_cons₂, List.cons_append]
          rw [ih h]

theorem anthPushToolResult_countP (acc : List AnthMessage) (b : AnthBlock) :
    (anthPushToolResult acc b).countP (fun m => decide (m.role = Role.system)) =
      acc.countP (fun m => decide (m.role = Role.system)) := by
  unfold anthPushToolResult
  cases hlast : acc.getLast? with
  | none =>
      have : acc = [] := by
        cases acc with
        | nil => rfl
        | cons x xs => simp [List.getLast?_eq_getLast] at hlast
      subst this
      simp
  | some lastMsg =>
      have hacc := dropLast_append_of_getLast? acc lastMsg hlast
      by_cases hrole : lastMsg.role = Role.user
      · simp only [hrole, if_true]
        cases hcon : lastMsg.content with
        | blocks l =>
            rw [← hacc]
            simp [List.countP_append, hrole]
        | str s =>
            rw [← hacc]
            simp [List.countP_append, hrole]
      · simp only [hrole, if_false]
        simp [List.countP_append]

theorem anthConvertStep_countP (acc : List AnthMessage) (msg : Message) :
    (anthConvertStep acc msg).countP (fun m => decide (m.role = Role.system)) =
      acc.countP (fun m => decide (m.role = Role.system)) := by
  unfold anthConvertStep
  cases hrole : msg.role with
  | system => rfl
  | user => simp [List.countP_append]
  | assistant =>
      by_cases hblocks : ((if msg.content = "" then [] else [AnthBlock.text msg.content]) ++
          msg.tool_calls.map
            (fun tc => AnthBlock.toolUse tc.id tc.name tc.arguments)).isEmpty
      · simp [hblocks]
      · simp [hblocks, List.countP_append]
  | tool => exact anthPushToolResult_countP acc _

theorem anthFoldl_countP (messages : List Message) :
    ∀ acc : List AnthMessage,
      (messages.foldl anthConvertStep acc).countP
          (fun m => decide (m.role = Role.system)) =
        acc.countP (fun m => decide (m.role = Role.system)) := by
  induction messages with
  | nil => intro acc; rfl
  | cons msg rest ih =>
      intro acc
      rw [List.foldl_cons, ih, anthConvertStep_countP]

/-- The OpenAI-compatible per-message conversion preserves the
system-ness of each role. -/
theorem openaiWireRole_preserved (msg : Message) :
    decide ((openaiWireOf msg).role = Role.system) = decide (msg.role = Role.system) := by
  unfold openaiWireOf
  cases msg.role <;> rfl

/-- C8 counterexample: with one canonical system message (project
knowledge), the native Kimi adapter's wire request carries two
system-role messages, not exactly one. -/
theorem single_system_payload_counterexample :
    ((kimiConvertMessages [{ role := .system, content := "项目知识文档" }]).countP
        (fun m => decide (m.role = Role.system))) = 2 ∧
    ((kimiConvertMessages [{ role := .system, content := "项目知识文档" }]).countP
        (fun m => decide (m.role = Role.system))) ≠ 1 := by
  constructor <;> decide

/-- C8 amended: the Anthropic adapter funnels the base instructions
and all canonical system messages into the single `system` parameter
and emits no system-role wire message, while the OpenAI-compatible
native adapters (Kimi/OpenAI/Grok) emit the base system prompt as a
leading system message plus one further system message per canonical
system message — one payload plus one per project-knowledge entry. -/
theorem system_payload_accounting (messages : List Message) :
    ((mkAnthropicRequest messages).messages.countP
        (fun m => decide (m.role = Role.system))) = 0 ∧
    (mkAnthropicRequest messages).system = anthropicFullSystemPrompt messages ∧
    (kimiConvertMessages messages).head? =
      some { role := .system, content := some buildSystemPrompt } ∧
    ((kimiConvertMessages messages).countP
        (fun m => decide (m.role = Role.system))) =
      1 + messages.countP (fun m => decide (m.role = Role.system)) ∧
    ((openaiConvertMessages messages).countP
        (fun m => decide (m.role = Role.system))) =
      1 + messages.countP (fun m => decide (m.role = Role.system)) := by
  have h := anthFoldl_countP messages []
  refine ⟨?_, rfl, rfl, ?_, ?_⟩
  · show (anthropicConvertMessages messages).countP _ = 0
    unfold anthropicConvertMessages
    cases hhead : (messages.foldl anthConvertStep ([] : List AnthMessage)).head? with
    | none =>
        simp only [hhead, List.countP_cons]
        rw [h]
        rfl
    | some first =>
        by_cases hrole : first.role = Role.user
        · simp only [hhead, hrole, if_true]
          exact h
        · simp only [hhead, hrole, if_false, List.countP_cons]
          rw [h]
          rfl
  · unfold kimiConvertMessages
    rw [List.countP_cons_of_pos _ _ (by rfl), List.countP_map]
    rw [Nat.add_comm]
    congr 1
    refine List.countP_congr (fun msg _ => ?_)
    simp only [Function.comp_apply]
    rw [openaiWireRole_preserved msg]
  · unfold openaiConvertMessages
    rw [List.countP_cons_of_pos _ _ (by rfl), List.countP_map]
    rw [Nat.add_comm]
    congr 1
    refine List.countP_congr (fun msg _ => ?_)
    simp only [Function.comp_apply]
    rw [openaiWireRole_preserved msg]

/-! ## C9: sub-agent isolation -/

theorem mapDelete_mapSet_fresh (m : List (String × AgentM)) (k : String)
    (v : AgentM) (hfresh : ∀ kv ∈ m, kv.1 ≠ k) :
    mapDelete (mapSet m k v) k = m := by
  have hany : (m.any fun kv => kv.1 = k) = false := by
    simp only [List.any_eq_false]
    intro kv hkv
    simp [hfresh kv hkv]
  unfold mapSet mapDelete
  rw [hany]
  simp only [Bool.false_eq_true, if_false, List.filter_append]
  rw [List.filter_eq_self.mpr (fun kv hkv => by simp [hfresh kv hkv])]
  simp

/-- C9: a directive input spawns a sub-agent with an empty message
history, the caller receives exactly the sub-agent run's result, the
sub-agent is removed from the manager after the run (whether it
succeeded or propagated an error), and the main agent — its history
included — is untouched. -/
theorem subagent_isolated_and_ephemeral
    (llm : List Message → Except String LLMResp) (toolExec : ToolCall → ToolResult)
    (appConfig : AppConfig) (freshId : String) (st : ManagerState) (input : String)
    (type : AgentType) (message : String)
    (hparse : parseAgentCommand input = some (type, message))
    (hfresh : ∀ kv ∈ st.subAgents, kv.1 ≠ freshId) :
    (createSubAgent freshId type st.projectContext).messages = [] ∧
    (handleInput llm toolExec appConfig freshId st input).1 =
      (agentRun llm toolExec appConfig
        (createSubAgent freshId type st.projectContext)
        (if message = "" then "请开始工作" else message)).result ∧
    (handleInput llm toolExec appConfig freshId st input).2.mainAgent =
      st.mainAgent ∧
    (handleInput llm toolExec appConfig freshId st input).2.subAgents =
      st.subAgents := by
  unfold handleInput
  rw [hparse]
  exact ⟨rfl, rfl, rfl, mapDelete_mapSet_fresh st.subAgents freshId
    (createSubAgent freshId type st.projectContext) hfresh⟩

def mainAgentW : AgentM :=
  { id := "m1", config := getAgentConfig .main,
    messages := [{ role := .user, content := "早前的对话" }],
    isRunning := false }

def managerStateW : ManagerState :=
  { mainAgent := mainAgentW, subAgents := [], projectContext := some "项目知识" }

/-- C9 witness: the directive `"@test 写一个测试"` on a concrete
manager state. -/
theorem subagent_isolated_and_ephemeral_witness :
    (createSubAgent "sub1" .test managerStateW.projectContext).messages = [] ∧
    (handleInput llmStopW toolExecW configC2 "sub1" managerStateW
        "@test 写一个测试").1 =
      (agentRun llmStopW toolExecW configC2
        (createSubAgent "sub1" .test managerStateW.projectContext)
        (if "写一个测试" = "" then "请开始工作" else "写一个测试")).result ∧
    (handleInput llmStopW toolExecW configC2 "sub1" managerStateW
        "@test 写一个测试").2.mainAgent = managerStateW.mainAgent ∧
    (handleInput llmStopW toolExecW configC2 "sub1" managerStateW
        "@test 写一个测试").2.subAgents = managerStateW.subAgents :=
  subagent_isolated_and_ephemeral llmStopW toolExecW configC2 "sub1" managerStateW
    "@test 写一个测试" .test "写一个测试" (by decide) (by decide)

end Ghostwriter
